import Mathlib

/-!
Verification development for the `lnb-node` sensor module (`src/node/sensor.py`).

The module is shallowly embedded: each blocking hardware loop becomes a pure
function over an explicit list of simulated hardware observations, and the
mutable local variables of the Python code become fields of an explicit state
record threaded through a step function.  Numeric hardware readouts (distance,
energy, latitude, longitude) are modelled as integers; no arithmetic is ever
performed on them in the embedded code, only assignment and comparison, so
this abstraction is faithful.  Textual values (timestamps, rendered packets)
are modelled as lists of characters.
-/

namespace LnbNode

/-! ## Embedding of `Sensor.lightning` (the AS3935 event-classification loop)

The Python loop (sensor.py lines 233-276) is:

    distance = -1
    try:
        i = 0
        while True:
            if self.as3935_interrupt_pin.value:
                if LS:
                    interrupt_value = self.as3935.read_interrupt_register()
                    distance = self.as3935.distance_to_storm
                    intensity = self.as3935.lightning_energy
                    if interrupt_value == NOISE: clear_statistics()
                    elif interrupt_value == DISTURBER: i += 1; clear_statistics(); break
                    elif interrupt_value == LIGHTNING: PiLED = 1; clear_statistics(); break
                else:
                    break
                time.sleep(0.5)
                self.PiLED.value = 0
    except KeyboardInterrupt:
        pass
    return distance

Each iteration of the `while True` loop consumes one `Poll` from the supplied
observation list: the interrupt-pin value and, in case the register is read,
the interrupt cause and the distance/energy readouts of that read.
-/

/-- Value read from the AS3935 interrupt-cause register.  `other` stands for
any register value that is none of the three named causes (the Python
`if/elif/elif` chain has no final `else`, so such a value selects no branch). -/
inductive Cause where
  | noise
  | disturber
  | lightningStrike
  | other
deriving DecidableEq

/-- One iteration's worth of simulated hardware observations: the interrupt
pin level, and the cause/distance/energy values that the detector would
deliver if the register is read on this pass. -/
structure Poll where
  pin : Bool
  cause : Cause
  distance : Int
  energy : Int
deriving DecidableEq

/-- The local state of `Sensor.lightning`: the Python locals `distance`, `i`
(disturber counter) and `intensity`, the LED output, and instrumentation
counters for the observable hardware commands (register reads,
`clear_statistics` commands, settle sleeps) and the number of loop
iterations executed (`passes`, the abstract clock of the wait). -/
structure LsState where
  dist : Int
  i : Nat
  intensity : Option Int
  led : Bool
  reads : Nat
  clears : Nat
  sleeps : Nat
  passes : Nat
deriving DecidableEq

/-- State at entry of the loop: `distance = -1`, `i = 0`, `intensity` unset,
LED off, no hardware commands issued yet. -/
def lsInit : LsState :=
  { dist := -1, i := 0, intensity := none, led := false,
    reads := 0, clears := 0, sleeps := 0, passes := 0 }

/-- Outcome of one loop iteration: either the loop continues with an updated
state, or `break` was executed and the call returns with the final state. -/
inductive StepOut where
  | cont (s : LsState)
  | ret (s : LsState)
deriving DecidableEq

/-- One iteration of the `while True` loop of `Sensor.lightning`, translated
line by line from sensor.py lines 237-272.  `ls` is the `LS` feature flag. -/
def lsStep (ls : Bool) (s : LsState) (p : Poll) : StepOut :=
  let s0 := { s with passes := s.passes + 1 }
  if p.pin then
    if ls then
      -- interrupt_value := read_interrupt_register(); distance := ...; intensity := ...
      let s1 := { s0 with reads := s0.reads + 1, dist := p.distance,
                          intensity := some p.energy }
      match p.cause with
      | Cause.noise =>
          -- clear_statistics(); then time.sleep(0.5); PiLED := 0; loop again
          StepOut.cont { s1 with clears := s1.clears + 1, sleeps := s1.sleeps + 1,
                                 led := false }
      | Cause.disturber =>
          -- i += 1; clear_statistics(); break
          StepOut.ret { s1 with i := s1.i + 1, clears := s1.clears + 1 }
      | Cause.lightningStrike =>
          -- PiLED := 1; clear_statistics(); break
          StepOut.ret { s1 with led := true, clears := s1.clears + 1 }
      | Cause.other =>
          -- no branch taken; time.sleep(0.5); PiLED := 0; loop again
          StepOut.cont { s1 with sleeps := s1.sleeps + 1, led := false }
    else
      -- LS disabled: break (with the current value of `distance`)
      StepOut.ret s0
  else
    -- pin low: nothing happens this pass, poll again
    StepOut.cont s0

/-- Run the loop of `Sensor.lightning` over a list of simulated observations.
`Sum.inl s` means the supplied observations are exhausted and the loop is
still running (the call has not returned); `Sum.inr s` means `break` was
reached and the call returned with final state `s`; any remaining
observations are never consumed. -/
def lsRun (ls : Bool) (s : LsState) : List Poll → Sum LsState LsState
  | [] => Sum.inl s
  | p :: rest =>
    match lsStep ls s p with
    | StepOut.cont s1 => lsRun ls s1 rest
    | StepOut.ret s1 => Sum.inr s1

/-- Project the state out of a run outcome. -/
def outState : Sum LsState LsState → LsState
  | Sum.inl s => s
  | Sum.inr s => s

/-- Value that `Sensor.lightning` returns if a `KeyboardInterrupt` arrives
after the given observations have been processed: the `except
KeyboardInterrupt: pass` handler falls through to `return distance`, so the
call returns the current value of the `distance` local. -/
def lightningCancelled (ls : Bool) (polls : List Poll) : Int :=
  (outState (lsRun ls lsInit polls)).dist

/-- A poll on which an `LS`-enabled loop iteration does not `break`:
either the pin is low, or the cause read is `NOISE` or an unnamed value. -/
def nonTerminalPoll (p : Poll) : Bool :=
  !p.pin || p.cause == Cause.noise || p.cause == Cause.other

/-- A poll on which an `LS`-enabled loop iteration executes `break`:
pin high and cause `DISTURBER` or `LIGHTNING`. -/
def terminalPoll (p : Poll) : Bool :=
  p.pin && (p.cause == Cause.disturber || p.cause == Cause.lightningStrike)

/-! ## Embedding of `Sensor.get_GPS_Fix` (sensor.py lines 109-171)

The enabled branch is:

    check_y = 2020
    while not gps_module.has_fix or check_y == 2020:
        gps_module.update()
        check_y = gps_module.timestamp_utc.tm_year
        time.sleep(1)
    gps_lat = gps_module.latitude
    gps_long = gps_module.longitude
    self.clock.datetime = time.struct_time((tm_year, ..., tm_yday, -1))

Each `gps_module.update()` consumes one `GpsPoll` from the supplied list; the
loop condition at the top of iteration `k+1` sees the `has_fix` flag and the
`tm_year` installed by update `k`.  The disabled branch returns `(-1, -1)`
and leaves the real-time clock untouched. -/

/-- The UTC calendar fields reported by the GPS module after an update;
these are the fields written into the real-time clock at fix time. -/
structure Calendar where
  year : Int
  month : Int
  day : Int
  hour : Int
  minute : Int
  second : Int
  wday : Int
  yday : Int
deriving DecidableEq

/-- The receiver state installed by one `gps_module.update()`: the `has_fix`
flag and the reported UTC calendar (whose `year` is `tm_year`). -/
structure GpsPoll where
  hasFix : Bool
  cal : Calendar
deriving DecidableEq

/-- The receiver's power-on default year, used by the code as the sentinel
for a not-yet-real timestamp (`check_y == 2020`). -/
def sentinelYear : Int := 2020

/-- The polling loop of `get_GPS_Fix`.  Arguments: current `has_fix` flag,
current `check_y`, the most recent poll observed (if any), and the remaining
simulated updates.  Returns `some (n, last)` when the loop condition fails
after consuming `n` further updates, where `last` is the update in force at
exit; returns `none` when the update list is exhausted with the loop still
running (the call blocks forever on such a trace). -/
def gpsLoopAux : Bool → Int → Option GpsPoll → List GpsPoll →
    Option (Nat × Option GpsPoll)
  | hf, y, last, polls =>
    if hf = true ∧ y ≠ sentinelYear then
      some (0, last)
    else
      match polls with
      | [] => none
      | p :: rest =>
        match gpsLoopAux p.hasFix p.cal.year (some p) rest with
        | none => none
        | some r => some (r.1 + 1, r.2)

/-- Simulated GPS receiver: the sequence of update results it will deliver
and the latitude/longitude it reports once the fix criteria are met. -/
structure GpsReceiver where
  polls : List GpsPoll
  lat : Int
  long : Int
deriving DecidableEq

/-- Result of `get_GPS_Fix`: the returned coordinate pair, the real-time
clock contents after the call (`none` = still at its power-on default), and
the number of poll cycles (update/sleep iterations) executed. -/
structure FixResult where
  lat : Int
  long : Int
  rtcAfter : Option Calendar
  iters : Nat
deriving DecidableEq

/-- `Sensor.get_GPS_Fix`, over a simulated receiver.  `gpsEnabled` is the
`GPS` feature flag, `hf0` the receiver's `has_fix` value before the first
update, `rtc0` the clock contents at entry.  `none` means the call never
returns on the supplied trace. -/
def get_GPS_Fix (gpsEnabled hf0 : Bool) (recv : GpsReceiver)
    (rtc0 : Option Calendar) : Option FixResult :=
  if gpsEnabled then
    match gpsLoopAux hf0 sentinelYear none recv.polls with
    | none => none
    | some (n, some p) => some ⟨recv.lat, recv.long, some p.cal, n⟩
    | some (_, none) => none
  else
    some ⟨-1, -1, rtc0, 0⟩

/-! ## Embedding of `Sensor.collect` and the packet format (lines 279-301)

    stk = self.lightning()
    t_stmp = self.timestamp()        # RTC snapshot, after lightning() returns
    t_int = time.time()
    packet = f"{t_stmp},{t_int},{self.gps_lat},{self.gps_long},{stk}"

Time is abstracted as the number of loop iterations executed so far, so the
clock reads in `collect` happen at `t0 + passes` where `passes` is the
iteration count of the just-finished `lightning()` wait.  Field values are
modelled as character lists (their Python `str()` renderings). -/

/-- Decimal rendering of an integer, the model of Python `str()` on the
distance value interpolated into the packet. -/
def intChars (i : Int) : List Char := (toString i).data

/-- The time-indexed environment of `collect`: the ISO-8601 string the
real-time clock would produce at a given abstract time, and the
`time.time()` epoch rendering at that time. -/
structure NodeEnv where
  rtcIso : Nat → List Char
  epochChars : Nat → List Char

/-- The packet f-string: five fields joined by commas, in the order
timestamp, epoch, latitude, longitude, distance. -/
def renderRecord (t e la lo d : List Char) : List Char :=
  t ++ [','] ++ e ++ [','] ++ la ++ [','] ++ lo ++ [','] ++ d

/-- `Sensor.collect`: run the `lightning()` wait over the supplied
observations; when it returns, snapshot the clock and assemble the packet.
`none` means `lightning()` never returned on the supplied trace, so
`collect` does not return either. -/
def collect (ls : Bool) (env : NodeEnv) (latS longS : List Char) (t0 : Nat)
    (polls : List Poll) : Option (List Char) :=
  match lsRun ls lsInit polls with
  | Sum.inl _ => none
  | Sum.inr s =>
    some (renderRecord (env.rtcIso (t0 + s.passes)) (env.epochChars (t0 + s.passes))
      latS longS (intChars s.dist))

/-- Split a character list at every comma, the model of Python
`str.split(",")`: `splitComma` of `"a,,b"` is `["a", "", "b"]`. -/
def splitCommaAux : List Char → List Char → List (List Char)
  | acc, [] => [acc.reverse]
  | acc, c :: cs =>
    if c = ',' then acc.reverse :: splitCommaAux [] cs
    else splitCommaAux (c :: acc) cs

/-- Split a rendered line on commas. -/
def splitComma (s : List Char) : List (List Char) := splitCommaAux [] s

/-- A field that contains no comma (true of every field the code renders:
ISO timestamps and decimal numbers are comma-free). -/
def noComma : List Char → Bool
  | [] => true
  | c :: cs => if c = ',' then false else noComma cs

/-! ## Step lemmas for the event-classification loop -/

/-- With the pin low, an iteration only advances the abstract clock. -/
theorem lsStep_pin_low (ls : Bool) (s : LsState) (p : Poll) (hp : p.pin = false) :
    lsStep ls s p = StepOut.cont { s with passes := s.passes + 1 } := by
  obtain ⟨pin, c, d, e⟩ := p
  cases hp
  rfl

/-- A `NOISE` read: readouts consumed, statistics cleared, settle sleep,
LED deasserted, loop continues. -/
theorem lsStep_noise (s : LsState) (p : Poll) (hp : p.pin = true)
    (hc : p.cause = Cause.noise) :
    lsStep true s p = StepOut.cont
      { dist := p.distance, i := s.i, intensity := some p.energy, led := false,
        reads := s.reads + 1, clears := s.clears + 1, sleeps := s.sleeps + 1,
        passes := s.passes + 1 } := by
  obtain ⟨pin, c, d, e⟩ := p
  cases hp
  cases hc
  rfl

/-- A `DISTURBER` read: readouts consumed, counter bumped, statistics
cleared, loop terminates. -/
theorem lsStep_disturber (s : LsState) (p : Poll) (hp : p.pin = true)
    (hc : p.cause = Cause.disturber) :
    lsStep true s p = StepOut.ret
      { dist := p.distance, i := s.i + 1, intensity := some p.energy, led := s.led,
        reads := s.reads + 1, clears := s.clears + 1, sleeps := s.sleeps,
        passes := s.passes + 1 } := by
  obtain ⟨pin, c, d, e⟩ := p
  cases hp
  cases hc
  rfl

/-- A `LIGHTNING` read: readouts consumed, LED asserted, statistics
cleared, loop terminates. -/
theorem lsStep_strike (s : LsState) (p : Poll) (hp : p.pin = true)
    (hc : p.cause = Cause.lightningStrike) :
    lsStep true s p = StepOut.ret
      { dist := p.distance, i := s.i, intensity := some p.energy, led := true,
        reads := s.reads + 1, clears := s.clears + 1, sleeps := s.sleeps,
        passes := s.passes + 1 } := by
  obtain ⟨pin, c, d, e⟩ := p
  cases hp
  cases hc
  rfl

/-- An unnamed register value: readouts consumed, no statistics clear,
settle sleep, LED deasserted, loop continues. -/
theorem lsStep_other (s : LsState) (p : Poll) (hp : p.pin = true)
    (hc : p.cause = Cause.other) :
    lsStep true s p = StepOut.cont
      { dist := p.distance, i := s.i, intensity := some p.energy, led := false,
        reads := s.reads + 1, clears := s.clears, sleeps := s.sleeps + 1,
        passes := s.passes + 1 } := by
  obtain ⟨pin, c, d, e⟩ := p
  cases hp
  cases hc
  rfl

/-- With `LS` disabled a pin-high pass hits the bare `else: break`. -/
theorem lsStep_disabled (s : LsState) (p : Poll) (hp : p.pin = true) :
    lsStep false s p = StepOut.ret { s with passes := s.passes + 1 } := by
  obtain ⟨pin, c, d, e⟩ := p
  cases hp
  rfl

/-- A non-terminal poll never breaks an enabled loop iteration. -/
theorem lsStep_cont_of_nonTerminal (s : LsState) (p : Poll)
    (h : nonTerminalPoll p = true) :
    ∃ s1, lsStep true s p = StepOut.cont s1 := by
  cases hp : p.pin with
  | false => exact ⟨_, lsStep_pin_low true s p hp⟩
  | true =>
    cases hc : p.cause with
    | noise => exact ⟨_, lsStep_noise s p hp hc⟩
    | other => exact ⟨_, lsStep_other s p hp hc⟩
    | disturber => simp [nonTerminalPoll, hp, hc] at h
    | lightningStrike => simp [nonTerminalPoll, hp, hc] at h

/-- A terminal poll breaks the loop, with the `distance` local holding the
readout of that very pass. -/
theorem lsStep_ret_of_terminal (s : LsState) (p : Poll)
    (h : terminalPoll p = true) :
    ∃ s1, lsStep true s p = StepOut.ret s1 ∧ s1.dist = p.distance := by
  simp only [terminalPoll, Bool.and_eq_true, Bool.or_eq_true, beq_iff_eq] at h
  obtain ⟨hp, hc | hc⟩ := h
  · exact ⟨_, lsStep_disturber s p hp hc, rfl⟩
  · exact ⟨_, lsStep_strike s p hp hc, rfl⟩

/-- Running the loop across a non-terminal prefix just moves the state. -/
theorem lsRun_append_of_nonTerminal :
    ∀ (pre : List Poll) (rest : List Poll) (s : LsState),
      (∀ q ∈ pre, nonTerminalPoll q = true) →
      ∃ s1, lsRun true s (pre ++ rest) = lsRun true s1 rest := by
  intro pre
  induction pre with
  | nil => exact fun rest s _ => ⟨s, rfl⟩
  | cons p pre ih =>
    intro rest s hall
    obtain ⟨s1, h1⟩ := lsStep_cont_of_nonTerminal s p (hall p (List.mem_cons_self _ _))
    obtain ⟨s2, h2⟩ := ih rest s1 fun q hq => hall q (List.mem_cons_of_mem _ hq)
    refine ⟨s2, ?_⟩
    rw [List.cons_append]
    simp only [lsRun, h1]
    exact h2

/-- A run over only non-terminal polls never returns. -/
theorem lsRun_inl_of_all_nonTerminal (polls : List Poll) (s : LsState)
    (h : ∀ p ∈ polls, nonTerminalPoll p = true) :
    ∃ s1, lsRun true s polls = Sum.inl s1 := by
  obtain ⟨s1, h1⟩ := lsRun_append_of_nonTerminal polls [] s h
  rw [List.append_nil] at h1
  exact ⟨s1, h1⟩

/-- The `clear_statistics` count tracks the register-read count as long as
every read delivers one of the three named causes. -/
theorem clears_eq_reads_run :
    ∀ (polls : List Poll) (s : LsState), s.clears = s.reads →
      (∀ p ∈ polls, p.cause ≠ Cause.other) →
      (outState (lsRun true s polls)).clears
        = (outState (lsRun true s polls)).reads := by
  intro polls
  induction polls with
  | nil => intro s hs _; simpa [lsRun, outState] using hs
  | cons p rest ih =>
    intro s hs hall
    have hrest : ∀ q ∈ rest, q.cause ≠ Cause.other :=
      fun q hq => hall q (List.mem_cons_of_mem _ hq)
    cases hp : p.pin with
    | false =>
      simp only [lsRun, lsStep_pin_low true s p hp]
      exact ih _ hs hrest
    | true =>
      cases hc : p.cause with
      | noise =>
        simp only [lsRun, lsStep_noise s p hp hc]
        exact ih _ (by simp [hs]) hrest
      | disturber =>
        simp only [lsRun, lsStep_disturber s p hp hc, outState]
        simp [hs]
      | lightningStrike =>
        simp only [lsRun, lsStep_strike s p hp hc, outState]
        simp [hs]
      | other => exact absurd hc (hall p (List.mem_cons_self _ _))

/-- The `distance` local is untouched while the pin stays low. -/
theorem lsRun_dist_of_pin_low :
    ∀ (polls : List Poll) (s : LsState), (∀ p ∈ polls, p.pin = false) →
      lsRun true s polls = Sum.inl (outState (lsRun true s polls))
      ∧ (outState (lsRun true s polls)).dist = s.dist := by
  intro polls
  induction polls with
  | nil => intro s _; exact ⟨rfl, rfl⟩
  | cons p rest ih =>
    intro s hall
    have hp : p.pin = false := hall p (List.mem_cons_self _ _)
    simp only [lsRun, lsStep_pin_low true s p hp]
    exact ih _ fun q hq => hall q (List.mem_cons_of_mem _ hq)

/-! ## Claim theorems for the event-classification loop -/

/-- C2: in an enabled `Sensor.lightning` call, (a) a trace consisting only of
non-terminal polls (pin low, `NOISE`, or an unnamed cause) never makes the
call return, so in particular a `NOISE` read never causes a return; (b) the
call returns exactly once, at the first `DISTURBER` or `LIGHTNING` read,
whatever observations would have followed; (c) `clear_statistics` is issued
after every interrupt-cause read regardless of which of the three named
causes was read: the clear count equals the read count over any trace whose
reads all deliver named causes. -/
theorem awaitEvent_classification_invariants :
    (∀ (s : LsState) (polls : List Poll),
        (∀ p ∈ polls, nonTerminalPoll p = true) →
        ∃ s1, lsRun true s polls = Sum.inl s1)
    ∧ (∀ (s : LsState) (pre : List Poll) (p : Poll) (rest : List Poll),
        (∀ q ∈ pre, nonTerminalPoll q = true) → terminalPoll p = true →
        ∃ s1, lsRun true s (pre ++ p :: rest) = Sum.inr s1)
    ∧ (∀ polls : List Poll,
        (∀ p ∈ polls, p.cause ≠ Cause.other) →
        (outState (lsRun true lsInit polls)).clears
          = (outState (lsRun true lsInit polls)).reads) := by
  refine ⟨fun s polls h => lsRun_inl_of_all_nonTerminal polls s h, ?_, ?_⟩
  · intro s pre p rest hpre hp
    obtain ⟨s1, h1⟩ := lsRun_append_of_nonTerminal pre (p :: rest) s hpre
    obtain ⟨s2, h2, _⟩ := lsStep_ret_of_terminal s1 p hp
    refine ⟨s2, ?_⟩
    rw [h1]
    simp only [lsRun, h2]
  · exact fun polls h => clears_eq_reads_run polls lsInit rfl h

/-- Witness for the C2 theorem at concrete traces: a lone `NOISE` read does
not return; a `NOISE` read followed by `DISTURBER` returns even with polls
left over; the clear count matches the read count on that trace. -/
theorem awaitEvent_classification_invariants_witness :
    (∃ s1, lsRun true lsInit [⟨true, Cause.noise, 7, 3⟩] = Sum.inl s1)
    ∧ (∃ s1, lsRun true lsInit
        ([⟨true, Cause.noise, 7, 3⟩] ++ ⟨true, Cause.disturber, 4, 10⟩ ::
          [⟨true, Cause.lightningStrike, 1, 1⟩]) = Sum.inr s1)
    ∧ (outState (lsRun true lsInit
          [⟨true, Cause.noise, 7, 3⟩, ⟨true, Cause.disturber, 4, 10⟩])).clears
        = (outState (lsRun true lsInit
          [⟨true, Cause.noise, 7, 3⟩, ⟨true, Cause.disturber, 4, 10⟩])).reads := by
  refine ⟨?_, ?_, ?_⟩
  · exact awaitEvent_classification_invariants.1 lsInit _ (by decide)
  · exact awaitEvent_classification_invariants.2.1 lsInit _ _ _ (by decide) (by decide)
  · exact awaitEvent_classification_invariants.2.2 _ (by decide)

/-- C10: on an enabled pass whose register read delivers a value that is
none of `NOISE`, `DISTURBER`, `LIGHTNING`, the `if/elif/elif` chain selects
no branch: the pass does not terminate the call, no `clear_statistics` is
issued for that read, yet the distance and energy readouts were consumed,
and after the settle sleep the loop resumes on the remaining polls. -/
theorem awaitEvent_unknown_cause_step :
    ∀ (s : LsState) (p : Poll) (rest : List Poll),
      p.pin = true → p.cause = Cause.other →
      lsStep true s p = StepOut.cont
        { dist := p.distance, i := s.i, intensity := some p.energy, led := false,
          reads := s.reads + 1, clears := s.clears, sleeps := s.sleeps + 1,
          passes := s.passes + 1 }
      ∧ lsRun true s (p :: rest) = lsRun true
        { dist := p.distance, i := s.i, intensity := some p.energy, led := false,
          reads := s.reads + 1, clears := s.clears, sleeps := s.sleeps + 1,
          passes := s.passes + 1 } rest := by
  intro s p rest hp hc
  refine ⟨lsStep_other s p hp hc, ?_⟩
  simp only [lsRun, lsStep_other s p hp hc]

/-- Witness for the C10 theorem at a concrete state and poll. -/
theorem awaitEvent_unknown_cause_step_witness :
    lsStep true lsInit ⟨true, Cause.other, 9, 2⟩ = StepOut.cont
      { dist := 9, i := 0, intensity := some 2, led := false,
        reads := 1, clears := 0, sleeps := 1, passes := 1 }
    ∧ lsRun true lsInit (⟨true, Cause.other, 9, 2⟩ :: [⟨true, Cause.disturber, 4, 10⟩])
      = lsRun true
        { dist := 9, i := 0, intensity := some 2, led := false,
          reads := 1, clears := 0, sleeps := 1, passes := 1 }
        [⟨true, Cause.disturber, 4, 10⟩] := by
  have h := awaitEvent_unknown_cause_step lsInit ⟨true, Cause.other, 9, 2⟩
    [⟨true, Cause.disturber, 4, 10⟩] rfl rfl
  exact h

/-- C7: when the first terminal read of an enabled `Sensor.lightning` call
is a `DISTURBER`, the returned state's distance is exactly the
`distance_to_storm` readout consumed on that pass (not a fixed 63 and not
the -1 sentinel, unless the readout itself had that value). -/
theorem awaitEvent_disturber_measured_distance :
    ∀ (s : LsState) (pre : List Poll) (p : Poll) (rest : List Poll),
      (∀ q ∈ pre, nonTerminalPoll q = true) →
      p.pin = true → p.cause = Cause.disturber →
      ∃ s1, lsRun true s (pre ++ p :: rest) = Sum.inr s1
        ∧ s1.dist = p.distance := by
  intro s pre p rest hpre hp hc
  obtain ⟨s1, h1⟩ := lsRun_append_of_nonTerminal pre (p :: rest) s hpre
  refine ⟨{ dist := p.distance, i := s1.i + 1, intensity := some p.energy,
            led := s1.led, reads := s1.reads + 1, clears := s1.clears + 1,
            sleeps := s1.sleeps, passes := s1.passes + 1 }, ?_, rfl⟩
  rw [h1]
  simp only [lsRun, lsStep_disturber s1 p hp hc]

/-- Witness for the C7 theorem: after one absorbed `NOISE` pass, a
`DISTURBER` read with distance readout 4 makes the call return 4. -/
theorem awaitEvent_disturber_measured_distance_witness :
    ∃ s1, lsRun true lsInit
        ([⟨true, Cause.noise, 7, 3⟩] ++ ⟨true, Cause.disturber, 4, 10⟩ :: [])
        = Sum.inr s1 ∧ s1.dist = 4 := by
  exact awaitEvent_disturber_measured_distance lsInit _ _ _ (by decide) rfl rfl

/-- C4 counterexample: the claim says a cancellation arriving after NOISE
passes still yields the -1 sentinel.  On the concrete trace with one
`NOISE` pass whose distance readout is 7, a cancellation makes
`Sensor.lightning` return 7, not -1: the `except KeyboardInterrupt: pass`
handler returns the `distance` local, which the NOISE pass overwrote. -/
theorem cancellation_after_noise_counterexample :
    lightningCancelled true [⟨true, Cause.noise, 7, 3⟩] = 7
    ∧ lightningCancelled true [⟨true, Cause.noise, 7, 3⟩] ≠ -1 := by
  constructor
  · rfl
  · decide

/-- C4 amended: a cancellation during the wait is caught and converted into
a normal return (never re-raised); the returned value is the current value
of the `distance` local: -1 when no interrupt-cause read preceded the
cancellation (e.g. the pin never went high), and otherwise the distance
readout of the most recent non-terminal read. -/
theorem cancellation_returns_current_distance :
    (∀ polls : List Poll, (∀ p ∈ polls, p.pin = false) →
        lightningCancelled true polls = -1)
    ∧ (∀ (pre : List Poll) (p : Poll),
        (∀ q ∈ pre, nonTerminalPoll q = true) →
        p.pin = true → p.cause = Cause.noise →
        lightningCancelled true (pre ++ [p]) = p.distance) := by
  constructor
  · intro polls h
    exact (lsRun_dist_of_pin_low polls lsInit h).2
  · intro pre p hpre hp hc
    obtain ⟨s1, h1⟩ := lsRun_append_of_nonTerminal pre [p] lsInit hpre
    unfold lightningCancelled
    rw [h1]
    simp only [lsRun, lsStep_noise s1 p hp hc, outState]

/-- Witness for the amended C4 theorem: cancellation with the pin always
low returns -1; cancellation after a `NOISE` pass with readout 7 returns 7. -/
theorem cancellation_returns_current_distance_witness :
    lightningCancelled true [⟨false, Cause.other, 0, 0⟩, ⟨false, Cause.other, 0, 0⟩] = -1
    ∧ lightningCancelled true
        ([⟨false, Cause.other, 0, 0⟩] ++ [⟨true, Cause.noise, 7, 3⟩]) = 7 := by
  constructor
  · exact cancellation_returns_current_distance.1 _ (by decide)
  · exact cancellation_returns_current_distance.2 _ ⟨true, Cause.noise, 7, 3⟩
      (by decide) rfl rfl

/-- With `LS` disabled, a run over pin-low polls only advances the clock. -/
theorem lsRun_disabled_pin_low :
    ∀ (n : Nat) (s : LsState),
      lsRun false s (List.replicate n ⟨false, Cause.other, 0, 0⟩)
        = Sum.inl { s with passes := s.passes + n } := by
  intro n
  induction n with
  | zero => intro s; rfl
  | succ n ih =>
    intro s
    rw [List.replicate_succ]
    simp only [lsRun, lsStep_pin_low false s ⟨false, Cause.other, 0, 0⟩ rfl, ih]
    congr 2
    omega

/-- C3: with the detector subsystem disabled (`LS` false), the claimed
immediate return does not happen: the pin test precedes the `LS` test, so
while the interrupt pin reads low (its pull-down default, nothing drives it
when the detector is absent), the loop never reaches the disabled-path
`break` — after any number of pin-low polls the call is still inside the
loop, having issued no hardware command, rather than having returned -1. -/
theorem awaitEvent_disabled_blocks_on_low_pin :
    ∀ n : Nat, lsRun false lsInit (List.replicate n ⟨false, Cause.other, 0, 0⟩)
      = Sum.inl { lsInit with passes := n } := by
  intro n
  have h := lsRun_disabled_pin_low n lsInit
  simpa [lsInit] using h

/-! ## Claim theorems for the GPS fix loop -/

/-- Whenever the polling loop of `get_GPS_Fix` exits, either it exited at
once because its entry condition already failed, or the update in force at
exit reports a held fix with a non-sentinel year. -/
theorem gpsLoopAux_exit :
    ∀ (polls : List GpsPoll) (hf : Bool) (y : Int) (last : Option GpsPoll)
      (n : Nat) (l : Option GpsPoll),
      gpsLoopAux hf y last polls = some (n, l) →
      (n = 0 ∧ hf = true ∧ y ≠ sentinelYear ∧ l = last)
      ∨ ∃ p, l = some p ∧ p.hasFix = true ∧ p.cal.year ≠ sentinelYear ∧ 1 ≤ n := by
  intro polls
  induction polls with
  | nil =>
    intro hf y last n l h
    rw [gpsLoopAux] at h
    by_cases hc : hf = true ∧ y ≠ sentinelYear
    · rw [if_pos hc] at h
      obtain ⟨h1, h2⟩ := Prod.mk.injEq .. ▸ Option.some.injEq .. ▸ h
      exact Or.inl ⟨h1.symm, hc.1, hc.2, h2.symm⟩
    · rw [if_neg hc] at h
      exact absurd h (by simp)
  | cons p rest ih =>
    intro hf y last n l h
    rw [gpsLoopAux] at h
    by_cases hc : hf = true ∧ y ≠ sentinelYear
    · rw [if_pos hc] at h
      obtain ⟨h1, h2⟩ := Prod.mk.injEq .. ▸ Option.some.injEq .. ▸ h
      exact Or.inl ⟨h1.symm, hc.1, hc.2, h2.symm⟩
    · rw [if_neg hc] at h
      cases hrec : gpsLoopAux p.hasFix p.cal.year (some p) rest with
      | none => rw [hrec] at h; exact absurd h (by simp)
      | some r =>
        rw [hrec] at h
        obtain ⟨h1, h2⟩ := Prod.mk.injEq .. ▸ Option.some.injEq .. ▸ h
        rcases ih p.hasFix p.cal.year (some p) r.1 r.2 (by rw [hrec]) with
          ⟨_, hfp, hyp, hl⟩ | ⟨q, hq, hfq, hyq, hn⟩
        · exact Or.inr ⟨p, by rw [← h2, hl], hfp, hyp, by omega⟩
        · exact Or.inr ⟨q, by rw [← h2, hq], hfq, hyq, by omega⟩

/-- C1: an enabled `get_GPS_Fix` never returns while the most recent update
still reports no fix or the sentinel year 2020: whenever the call returns,
at least one poll cycle ran, and the update in force at exit has `has_fix`
true together with a reported year different from the sentinel; the clock
is set from exactly that update's calendar.  (Proved for every simulated
fix sequence, which subsumes the sequences where `has_fix` becomes true
only after the year leaves the sentinel.) -/
theorem acquireFix_returns_only_with_real_fix :
    ∀ (hf0 : Bool) (recv : GpsReceiver) (rtc0 : Option Calendar) (r : FixResult),
      get_GPS_Fix true hf0 recv rtc0 = some r →
      ∃ p, gpsLoopAux hf0 sentinelYear none recv.polls = some (r.iters, some p)
        ∧ p.hasFix = true ∧ p.cal.year ≠ sentinelYear
        ∧ r.rtcAfter = some p.cal ∧ 1 ≤ r.iters := by
  intro hf0 recv rtc0 r h
  unfold get_GPS_Fix at h
  rw [if_pos rfl] at h
  cases hloop : gpsLoopAux hf0 sentinelYear none recv.polls with
  | none => rw [hloop] at h; exact absurd h (by simp)
  | some q =>
    rw [hloop] at h
    obtain ⟨n, l⟩ := q
    cases l with
    | none => exact absurd h (by simp)
    | some p =>
      rcases gpsLoopAux_exit recv.polls hf0 sentinelYear none n (some p) hloop with
        ⟨_, _, hy, _⟩ | ⟨q', hq', hfq, hyq, hn⟩
      · exact absurd rfl hy
      · have hq2 : q' = p := by
          injection hq' with h2
          exact h2.symm
        rw [hq2] at hfq hyq
        have hr : r = ⟨recv.lat, recv.long, some p.cal, n⟩ := by
          simpa using h.symm
        subst hr
        exact ⟨p, rfl, hfq, hyq, rfl, hn⟩

/-- Witness for the C1 theorem at a concrete one-poll trace whose single
update reports a fix in 2024. -/
theorem acquireFix_returns_only_with_real_fix_witness :
    ∃ p, gpsLoopAux false sentinelYear none
        [⟨true, ⟨2024, 5, 1, 12, 0, 0, 2, 122⟩⟩] = some (1, some p)
      ∧ p.hasFix = true ∧ p.cal.year ≠ sentinelYear
      ∧ (some (⟨2024, 5, 1, 12, 0, 0, 2, 122⟩ : Calendar) : Option Calendar)
          = some p.cal
      ∧ (1 : Nat) ≤ 1 := by
  have h := acquireFix_returns_only_with_real_fix false
    ⟨[⟨true, ⟨2024, 5, 1, 12, 0, 0, 2, 122⟩⟩], 35, -97⟩ none
    ⟨35, -97, some ⟨2024, 5, 1, 12, 0, 0, 2, 122⟩, 1⟩ (by decide)
  simpa using h

/-- C5: with positioning disabled (`GPS` false), `get_GPS_Fix` returns the
sentinel coordinates `(-1, -1)` at once — no poll cycle runs and the
real-time clock keeps whatever contents it had at entry (its power-on
default). -/
theorem acquireFix_disabled_sentinel :
    ∀ (hf0 : Bool) (recv : GpsReceiver) (rtc0 : Option Calendar),
      get_GPS_Fix false hf0 recv rtc0 = some ⟨-1, -1, rtc0, 0⟩ := by
  intro hf0 recv rtc0
  rfl

/-- C8: on the fix sequence reporting `has_fix = true` with the sentinel
year 2020 on three consecutive updates and then `has_fix = true` with year
2024, the enabled call blocks through exactly 3 poll cycles before the
cycle that observes the non-sentinel year, returns the receiver's
coordinates, and sets the clock from the fourth update. -/
theorem acquireFix_three_sentinel_cycles :
    get_GPS_Fix true false
      ⟨[⟨true, ⟨2020, 1, 1, 0, 0, 0, 0, 1⟩⟩, ⟨true, ⟨2020, 1, 1, 0, 0, 0, 0, 1⟩⟩,
        ⟨true, ⟨2020, 1, 1, 0, 0, 0, 0, 1⟩⟩, ⟨true, ⟨2024, 5, 1, 12, 0, 0, 2, 122⟩⟩],
       35, -97⟩ none
      = some ⟨35, -97, some ⟨2024, 5, 1, 12, 0, 0, 2, 122⟩, 3 + 1⟩ := by
  decide

/-! ## Claim theorems for record assembly -/

/-- Project the state out of a single-step outcome. -/
def stepState : StepOut → LsState
  | StepOut.cont s => s
  | StepOut.ret s => s

/-- Every loop iteration advances the abstract clock by exactly one. -/
theorem lsStep_passes (ls : Bool) (s : LsState) (p : Poll) :
    (stepState (lsStep ls s p)).passes = s.passes + 1 := by
  obtain ⟨pin, c, d, e⟩ := p
  cases pin <;> cases c <;> cases ls <;> rfl

/-- A run that returns has executed at least one loop iteration past the
entry state. -/
theorem lsRun_ret_passes :
    ∀ (polls : List Poll) (ls : Bool) (s s1 : LsState),
      lsRun ls s polls = Sum.inr s1 → s.passes + 1 ≤ s1.passes := by
  intro polls
  induction polls with
  | nil => intro ls s s1 h; exact absurd h (by simp [lsRun])
  | cons p rest ih =>
    intro ls s s1 h
    have hpass := lsStep_passes ls s p
    cases hstep : lsStep ls s p with
    | cont s2 =>
      rw [hstep] at hpass
      simp only [lsRun, hstep] at h
      have h2 := ih ls s2 s1 h
      simp only [stepState] at hpass
      omega
    | ret s2 =>
      rw [hstep] at hpass
      simp only [lsRun, hstep, Sum.inr.injEq] at h
      subst h
      simp only [stepState] at hpass
      omega

/-- C6: for every trace on which the enabled event wait reaches a terminal
classification, `Sensor.collect` produces exactly the comma-delimited
rendering of the five fields iso-timestamp, epoch, latitude, longitude,
distance, in that order, and both clock reads are taken at abstract time
`t0 + passes` — after the `passes ≥ 1` loop iterations of the wait have
finished, not at the time `t0` at which waiting began. -/
theorem collect_packet_format_and_ordering :
    ∀ (env : NodeEnv) (latS longS : List Char) (t0 : Nat) (polls : List Poll)
      (s : LsState),
      lsRun true lsInit polls = Sum.inr s →
      collect true env latS longS t0 polls
        = some (renderRecord (env.rtcIso (t0 + s.passes))
            (env.epochChars (t0 + s.passes)) latS longS (intChars s.dist))
      ∧ 1 ≤ s.passes := by
  intro env latS longS t0 polls s h
  constructor
  · unfold collect
    rw [h]
  · have h2 := lsRun_ret_passes polls true lsInit s h
    simpa [lsInit] using h2

/-- Witness for the C6 theorem: a single `DISTURBER` poll, a clock that
renders its abstract time, and a wait that starts at time 0. -/
theorem collect_packet_format_and_ordering_witness :
    (collect true ⟨fun t => (toString t).data, fun t => (toString (100 + t)).data⟩
        ['3', '5'] ['-', '9', '7'] 0 [⟨true, Cause.disturber, 4, 10⟩]
      = some (renderRecord ((toString (0 + 1)).data)
          ((toString (100 + (0 + 1))).data) ['3', '5'] ['-', '9', '7']
          (intChars 4)))
    ∧ (1 : Nat) ≤ 1 := by
  have h := collect_packet_format_and_ordering
    ⟨fun t => (toString t).data, fun t => (toString (100 + t)).data⟩
    ['3', '5'] ['-', '9', '7'] 0 [⟨true, Cause.disturber, 4, 10⟩]
    { dist := 4, i := 1, intensity := some 10, led := false,
      reads := 1, clears := 1, sleeps := 0, passes := 1 } (by decide)
  exact h

/-- Splitting a comma-free chunk consumes it whole. -/
theorem splitCommaAux_of_noComma :
    ∀ (a acc : List Char), noComma a = true →
      splitCommaAux acc a = [acc.reverse ++ a] := by
  intro a
  induction a with
  | nil => intro acc _; simp [splitCommaAux]
  | cons c cs ih =>
    intro acc h
    simp only [noComma] at h
    by_cases hc : c = ','
    · rw [if_pos hc] at h; exact absurd h (by simp)
    · rw [if_neg hc] at h
      simp only [splitCommaAux]
      rw [if_neg hc, ih _ h]
      simp

/-- Splitting past a comma-free chunk followed by a comma emits the chunk
as one field and recurses on the remainder. -/
theorem splitCommaAux_append (b : List Char) :
    ∀ (a acc : List Char), noComma a = true →
      splitCommaAux acc (a ++ ',' :: b) = (acc.reverse ++ a) :: splitComma b := by
  intro a
  induction a with
  | nil =>
    intro acc _
    simp only [List.nil_append, splitCommaAux, if_pos rfl]
    simp [splitComma]
  | cons c cs ih =>
    intro acc h
    simp only [noComma] at h
    by_cases hc : c = ','
    · rw [if_pos hc] at h; exact absurd h (by simp)
    · rw [if_neg hc] at h
      rw [List.cons_append]
      simp only [splitCommaAux]
      rw [if_neg hc, ih _ h]
      simp

/-- C9: splitting a rendered packet line on commas yields exactly five
fields, and they are exactly the five assembled field values (timestamp,
epoch, latitude, longitude, distance) — rendering then parsing is the
identity on the assembled tuple — provided each field is comma-free, as
every field the code produces is (ISO-8601 timestamps and decimal numeric
renderings contain no comma). -/
theorem record_round_trip :
    ∀ t e la lo d : List Char,
      noComma t = true → noComma e = true → noComma la = true →
      noComma lo = true → noComma d = true →
      splitComma (renderRecord t e la lo d) = [t, e, la, lo, d] := by
  intro t e la lo d ht he hla hlo hd
  have key : renderRecord t e la lo d
      = t ++ ',' :: (e ++ ',' :: (la ++ ',' :: (lo ++ ',' :: d))) := by
    simp [renderRecord]
  rw [key]
  rw [splitComma, splitCommaAux_append _ _ _ ht]
  rw [splitComma, splitCommaAux_append _ _ _ he]
  rw [splitComma, splitCommaAux_append _ _ _ hla]
  rw [splitComma, splitCommaAux_append _ _ _ hlo]
  rw [splitComma, splitCommaAux_of_noComma _ _ hd]
  simp

/-- Witness for the C9 theorem at concrete comma-free fields. -/
theorem record_round_trip_witness :
    splitComma (renderRecord ['t', '1'] ['9', '9'] ['3', '5'] ['-', '9'] ['4'])
      = [['t', '1'], ['9', '9'], ['3', '5'], ['-', '9'], ['4']] :=
  record_round_trip ['t', '1'] ['9', '9'] ['3', '5'] ['-', '9'] ['4']
    (by decide) (by decide) (by decide) (by decide) (by decide)

end LnbNode
